import Mathlib

/-!
# Verification of the rcds instancer backend

A shallow embedding of the rcds container-backend core:

* `src/rcds/project/project.py` — backend routing
  (`Project.get_backend_name_for_challenge`);
* `src/rcds/backends/instancer/backend.py` — the `InstancerClient`
  (`generate_login_token`, `delete_challenge`) and the `ContainerBackend`
  (`commit`, `_convert_challenge_config`, `_convert_resources`).

Python numbers appearing in resource specifications are modelled as rationals;
Python's `int(...)` conversion (truncation toward zero) is `pyInt`.  HTTP
requests are modelled by their observable data: `delete_challenge` by the
response status code it reacts to, and `ContainerBackend.commit` by the trace
of remote operations it issues.  Library collaborators that are not part of
this repository (the AES-GCM cipher from pycryptodome, `requests`,
`base64.b64decode`) are modelled as parameters or by their documented
behaviour.
-/

namespace Rcds

/-- Python's `int(x)` applied to a (real) number truncates toward zero; on a
rational `q` this is truncated division of the numerator by the denominator. -/
def pyInt (q : ℚ) : Int := q.num.tdiv q.den

theorem pyInt_eq_floor (q : ℚ) (h : 0 ≤ q) : pyInt q = ⌊q⌋ := by
  rw [Rat.floor_def, pyInt]
  exact Int.tdiv_eq_ediv (Rat.num_nonneg.mpr h) (Int.ofNat_nonneg q.den)

/-! ## Data model

The loosely-typed challenge configuration dictionaries, restricted to the
fields the instancer backend reads.  Values of container fields other than
`image` and `resources` are opaque payloads to the code (they are copied
verbatim); they are modelled as strings. -/

/-- A cpu/memory resource value: a Python number (int or float, modelled as a
rational) or an already-formatted string. -/
inductive ResourceValue where
  | num (v : ℚ)
  | str (s : String)
deriving DecidableEq

/-- One of the `limits` / `requests` mappings of a resource spec, restricted to
the `cpu` and `memory` keys `_convert_resources` reads (`none` = key absent). -/
structure ResourcePair where
  cpu : Option ResourceValue
  memory : Option ResourceValue
deriving DecidableEq

/-- A container's `resources` mapping (`none` = `limits` / `requests` absent). -/
structure Resources where
  limits : Option ResourcePair
  requests : Option ResourcePair
deriving DecidableEq

/-- `_convert_resources` output: the same shape with string values. -/
structure StrResourcePair where
  cpu : Option String
  memory : Option String
deriving DecidableEq

/-- `_convert_resources` output for the whole `resources` mapping. -/
structure StrResources where
  limits : Option StrResourcePair
  requests : Option StrResourcePair
deriving DecidableEq

/-- The value of an `http` expose rule: either a plain subdomain string or an
explicit raw domain (a dict holding a `raw` key in the YAML). -/
inductive HttpSpec where
  | subdomain (s : String)
  | raw (d : String)
deriving DecidableEq

/-- The protocol discriminator of an expose rule: a `tcp` key or an `http`
key carrying the (sub)domain information. -/
inductive ExposeKind where
  | tcp
  | http (h : HttpSpec)
deriving DecidableEq

/-- An expose rule: the `target` port plus the protocol discriminator. -/
structure ExposeRule where
  target : Nat
  kind : ExposeKind
deriving DecidableEq

/-- A container spec as the instancer backend reads it: the required `image`,
the remaining keys of the container dict as opaque payloads (`fields`), and the
optionally present `resources` mapping (kept apart because the code converts it
rather than copying it). -/
structure ContainerSpec where
  image : String
  fields : List (String × String)
  resources : Option Resources
deriving DecidableEq

/-- The routing-relevant part of a challenge's configuration together with the
pieces of `challenge.config` that `ContainerBackend.commit` and
`_convert_challenge_config` read.  `backend` is
`challenge.config.get("backend")` and `deployed` is
`challenge.config.get("deployed", True)`.  `containers` and `expose` are the
insertion-ordered key/value pairs of the corresponding dicts. -/
structure Challenge where
  id : String
  name : String
  backend : Option String
  deployed : Bool
  containers : List (String × ContainerSpec)
  expose : List (String × List ExposeRule)
deriving DecidableEq

/-! ## Backend routing (`src/rcds/project/project.py`) -/

/-- The routing-relevant state of a `Project`: the configured
`defaultContainerBackend` (if any) and `container_backend_order`, the names of
the registered container backends in registration order. -/
structure RouterState where
  default_container_backend : Option String
  container_backend_order : List String
deriving DecidableEq

/-- `Project.get_backend_name_for_challenge`: the challenge's own `backend`
entry, else the configured default, else the first registered backend name,
else `None`. -/
def get_backend_name_for_challenge (p : RouterState) (c : Challenge) :
    Option String :=
  let backend_name := c.backend
  let backend_name := match backend_name with
    | none => p.default_container_backend
    | some b => some b
  match backend_name with
  | none => p.container_backend_order.head?
  | some b => some b

/-- C7: Backend resolution for a challenge returns the challenge's explicit
backend override if present; otherwise the project's configured default
backend name; otherwise the first-registered backend name in registration
order; otherwise none. -/
theorem backend_resolution_order (p : RouterState) (c : Challenge) :
    (∀ b, c.backend = some b → get_backend_name_for_challenge p c = some b) ∧
    (c.backend = none → ∀ d, p.default_container_backend = some d →
      get_backend_name_for_challenge p c = some d) ∧
    (c.backend = none → p.default_container_backend = none →
      ∀ b rest, p.container_backend_order = b :: rest →
        get_backend_name_for_challenge p c = some b) ∧
    (c.backend = none → p.default_container_backend = none →
      p.container_backend_order = [] →
        get_backend_name_for_challenge p c = none) := by
  refine ⟨fun b hb => ?_, fun hb d hd => ?_, fun hb hd b rest ho => ?_,
    fun hb hd ho => ?_⟩ <;>
    simp [get_backend_name_for_challenge, hb, *]

/-- Closed instance of `backend_resolution_order`: with no override, no
configured default and registration order `["b1", "b2"]`, resolution returns
the first-registered name `"b1"`. -/
theorem backend_resolution_order_witness :
    get_backend_name_for_challenge ⟨none, ["b1", "b2"]⟩
      ⟨"c", "c", none, true, [], []⟩ = some "b1" :=
  (backend_resolution_order ⟨none, ["b1", "b2"]⟩
    ⟨"c", "c", none, true, [], []⟩).2.2.1 rfl rfl "b1" ["b2"] rfl

/-! ## Resource conversion (`ContainerBackend._convert_resources`) -/

/-- The conversion `_convert_resources` applies to a single cpu or memory
value: a numeric cpu value `v` becomes `f"{int(v * 1000)}m"`, a numeric memory
value `v` becomes `str(int(v))`, and a string passes through (`str` applied to
a string is the string itself). -/
def convertResourceValue (isCpu : Bool) : ResourceValue → String
  | .num v => if isCpu then toString (pyInt (v * 1000)) ++ "m" else toString (pyInt v)
  | .str s => s

/-- `ContainerBackend._convert_resources`: for each of `limits` / `requests`
present in the source, convert the `cpu` / `memory` entries present in it;
keys absent from the source are absent from the result. -/
def convert_resources (resources : Resources) : StrResources :=
  { limits := resources.limits.map fun p =>
      { cpu := p.cpu.map (convertResourceValue true)
        memory := p.memory.map (convertResourceValue false) }
    requests := resources.requests.map fun p =>
      { cpu := p.cpu.map (convertResourceValue true)
        memory := p.memory.map (convertResourceValue false) } }

/-- Modelled from the spec's words, for comparison with `convert_resources`:
a numeric cpu value `v` maps to `floor(v * 1000)` with an `"m"` suffix, a
numeric memory value to the decimal string of `floor(v)`, strings pass through
unchanged. -/
def specResourceValue (isCpu : Bool) : ResourceValue → String
  | .num v => if isCpu then toString ⌊v * 1000⌋ ++ "m" else toString ⌊v⌋
  | .str s => s

/-- Modelled from the spec's words: the conversion applied per
`limits` / `requests` × `cpu` / `memory`, preserving absence of keys. -/
def spec_convert_resources (resources : Resources) : StrResources :=
  { limits := resources.limits.map fun p =>
      { cpu := p.cpu.map (specResourceValue true)
        memory := p.memory.map (specResourceValue false) }
    requests := resources.requests.map fun p =>
      { cpu := p.cpu.map (specResourceValue true)
        memory := p.memory.map (specResourceValue false) } }

/-- An optionally present resource value describes a nonnegative quantity
(resource values are amounts of cpu or memory). -/
def valueNonneg : Option ResourceValue → Prop
  | some (.num v) => 0 ≤ v
  | _ => True

/-- All values present in one `limits` / `requests` mapping are nonnegative. -/
def pairNonneg : Option ResourcePair → Prop
  | none => True
  | some p => valueNonneg p.cpu ∧ valueNonneg p.memory

/-- All values present in a resource mapping are nonnegative quantities. -/
def Resources.nonneg (r : Resources) : Prop :=
  pairNonneg r.limits ∧ pairNonneg r.requests

theorem convertResourceValue_eq_spec (isCpu : Bool) (v : ResourceValue)
    (h : valueNonneg (some v)) :
    convertResourceValue isCpu v = specResourceValue isCpu v := by
  cases v with
  | num q =>
    have hq : (0 : ℚ) ≤ q := h
    cases isCpu with
    | false => simp [convertResourceValue, specResourceValue, pyInt_eq_floor q hq]
    | true =>
      have : (0 : ℚ) ≤ q * 1000 := by positivity
      simp [convertResourceValue, specResourceValue, pyInt_eq_floor _ this]
  | str s => rfl

theorem convertPair_eq_spec (c m : Option ResourceValue)
    (hc : valueNonneg c) (hm : valueNonneg m) :
    StrResourcePair.mk (c.map (convertResourceValue true))
        (m.map (convertResourceValue false)) =
      StrResourcePair.mk (c.map (specResourceValue true))
        (m.map (specResourceValue false)) := by
  congr 1
  · cases c with
    | none => rfl
    | some v =>
      show some (convertResourceValue true v) = some (specResourceValue true v)
      rw [convertResourceValue_eq_spec true v hc]
  · cases m with
    | none => rfl
    | some v =>
      show some (convertResourceValue false v) = some (specResourceValue false v)
      rw [convertResourceValue_eq_spec false v hm]

/-- C6: Resource conversion, for each of limits/requests crossed with
cpu/memory: a numeric cpu value `v` maps to `floor(v * 1000)` formatted with an
`"m"` suffix; a numeric memory value `v` maps to the decimal string of
`floor(v)`; a string value passes through unchanged; keys absent in the source
stay absent in the result.  (Resource values are nonnegative quantities.) -/
theorem convert_resources_matches_spec (r : Resources) (h : r.nonneg) :
    convert_resources r = spec_convert_resources r := by
  obtain ⟨hl, hr⟩ := h
  unfold convert_resources spec_convert_resources
  congr 1
  · cases hL : r.limits with
    | none => rfl
    | some p =>
      rw [hL] at hl
      exact congrArg some (convertPair_eq_spec p.cpu p.memory hl.1 hl.2)
  · cases hR : r.requests with
    | none => rfl
    | some p =>
      rw [hR] at hr
      exact congrArg some (convertPair_eq_spec p.cpu p.memory hr.1 hr.2)

/-- Closed instance of `convert_resources_matches_spec` at the spec's own
examples: `cpu = 0.25`, `memory = 134217728` under `limits`, and the
pass-through strings `cpu = "500m"`, `memory = "256Mi"` under `requests`. -/
theorem convert_resources_matches_spec_witness :
    (Resources.nonneg ⟨some ⟨some (.num (1 / 4)), some (.num 134217728)⟩,
        some ⟨some (.str "500m"), some (.str "256Mi")⟩⟩) ∧
    convert_resources ⟨some ⟨some (.num (1 / 4)), some (.num 134217728)⟩,
        some ⟨some (.str "500m"), some (.str "256Mi")⟩⟩ =
      spec_convert_resources ⟨some ⟨some (.num (1 / 4)), some (.num 134217728)⟩,
        some ⟨some (.str "500m"), some (.str "256Mi")⟩⟩ := by
  have h : Resources.nonneg ⟨some ⟨some (.num (1 / 4)), some (.num 134217728)⟩,
      some ⟨some (.str "500m"), some (.str "256Mi")⟩⟩ :=
    ⟨⟨by norm_num [valueNonneg], by norm_num [valueNonneg]⟩,
     ⟨trivial, trivial⟩⟩
  exact ⟨h, convert_resources_matches_spec _ h⟩

/-! ## Challenge config translation (`ContainerBackend._convert_challenge_config`)

The Python code accumulates the `tcp` and `http` expose maps in insertion-order
preserving dicts; they are modelled as association lists.  Appending a value to
a dict entry (creating the entry on first use, as the `if container_name not in
tcp` guard does) is `addToMap`. -/

/-- Insertion-ordered dict lookup. -/
def mapLookup {α : Type} : List (String × α) → String → Option α
  | [], _ => none
  | (k', v) :: rest, k => if k = k' then some v else mapLookup rest k

/-- Append `v` to the list stored under `k`, creating the entry (at the end,
as Python dict insertion does) when `k` has no entry yet. -/
def addToMap {α : Type} : List (String × List α) → String → α → List (String × List α)
  | [], k, v => [(k, [v])]
  | (k', vs) :: rest, k, v =>
    if k' = k then (k', vs ++ [v]) :: rest else (k', vs) :: addToMap rest k v

/-- The fqdn of an `http` rule: a raw domain verbatim; a subdomain suffixed
with the configured project domain when that is non-empty (`if domain:`),
otherwise bare. -/
def fullDomain (domain : String) : HttpSpec → String
  | .raw d => d
  | .subdomain s => if domain = "" then s else s ++ "." ++ domain

/-- The `tcp` map under construction: container name → target ports. -/
abbrev TcpMap := List (String × List Nat)

/-- The `http` map under construction: container name → `[port, fqdn]` pairs. -/
abbrev HttpMap := List (String × List (Nat × String))

/-- The inner loop of `_convert_challenge_config` over one container's expose
rules: a `tcp` rule appends its target port under the container's name in the
tcp map, an `http` rule appends `[target, fullDomain]` in the http map. -/
def convertRules (domain name : String) :
    List ExposeRule → TcpMap → HttpMap → TcpMap × HttpMap
  | [], tcp, http => (tcp, http)
  | rule :: rest, tcp, http =>
    match rule.kind with
    | .tcp => convertRules domain name rest (addToMap tcp name rule.target) http
    | .http h =>
      convertRules domain name rest tcp
        (addToMap http name (rule.target, fullDomain domain h))

/-- The outer loop of `_convert_challenge_config` over the
`expose` dict's `(container name, rules)` entries. -/
def convertExpose (domain : String) :
    List (String × List ExposeRule) → TcpMap → HttpMap → TcpMap × HttpMap
  | [], tcp, http => (tcp, http)
  | (name, rules) :: rest, tcp, http =>
    let maps := convertRules domain name rules tcp http
    convertExpose domain rest maps.1 maps.2

/-- The allow-list of container fields `_convert_challenge_config` copies. -/
def supported_fields : List String :=
  ["args", "command", "imagePullPolicy", "stdin", "stdinOnce",
   "terminationMessagePath", "terminationMessagePolicy", "tty",
   "workingDir", "env", "environment", "kubePorts", "ports",
   "securityContext", "hasEgress", "multiService"]

/-- A translated container: `image`, the allow-listed copied fields, and the
converted resources when present. -/
structure ContainerOut where
  image : String
  fields : List (String × String)
  resources : Option StrResources
deriving DecidableEq

/-- The per-container translation inside `_convert_challenge_config`. -/
def convertContainer (c : ContainerSpec) : ContainerOut :=
  { image := c.image
    fields := c.fields.filter fun kv => kv.1 ∈ supported_fields
    resources := c.resources.map convert_resources }

/-- The translated payload (`cfg`): `containers` always present; `tcp` and
`http` present only when non-empty (`if tcp:` / `if http:`). -/
structure InstancerCfg where
  containers : List (String × ContainerOut)
  tcp : Option TcpMap
  http : Option HttpMap
deriving DecidableEq

/-- `ContainerBackend._convert_challenge_config` (`domain` is
`self._options.get("domain", "")`). -/
def convert_challenge_config (domain : String) (c : Challenge) : InstancerCfg :=
  let maps := convertExpose domain c.expose [] []
  { containers := c.containers.map fun kv => (kv.1, convertContainer kv.2)
    tcp := if maps.1 = [] then none else some maps.1
    http := if maps.2 = [] then none else some maps.2 }

/-- The target ports of the `tcp` rules of one container, in rule order. -/
def tcpPortsOf (rules : List ExposeRule) : List Nat :=
  rules.filterMap fun r =>
    match r.kind with
    | .tcp => some r.target
    | .http _ => none

/-- The `[port, fqdn]` pairs of the `http` rules of one container, in rule
order. -/
def httpPairsOf (domain : String) (rules : List ExposeRule) : List (Nat × String) :=
  rules.filterMap fun r =>
    match r.kind with
    | .tcp => none
    | .http h => some (r.target, fullDomain domain h)

/-- The contents of a possibly-absent dict entry after appending a list of
values: absent stays absent when nothing is appended, otherwise the entry
holds the old values (if any) followed by the new ones. -/
def extendEntry {α : Type} (o : Option (List α)) : List α → Option (List α)
  | [] => o
  | x :: xs => some (o.getD [] ++ x :: xs)

theorem extendEntry_some {α : Type} (vs xs : List α) :
    extendEntry (some vs) xs = some (vs ++ xs) := by
  cases xs <;> simp [extendEntry]

theorem extendEntry_none {α : Type} [DecidableEq α] (xs : List α) :
    extendEntry none xs = if xs = [] then none else some xs := by
  cases xs <;> simp [extendEntry]

theorem mapLookup_addToMap_self {α : Type} (m : List (String × List α))
    (k : String) (v : α) :
    mapLookup (addToMap m k v) k = some ((mapLookup m k).getD [] ++ [v]) := by
  induction m with
  | nil => simp [addToMap, mapLookup]
  | cons kv rest ih =>
    obtain ⟨k', vs⟩ := kv
    by_cases h : k' = k
    · subst h
      simp [addToMap, mapLookup]
    · simp [addToMap, mapLookup, h, Ne.symm h, ih]

theorem mapLookup_addToMap_ne {α : Type} (m : List (String × List α))
    {k k₁ : String} (v : α) (h : k₁ ≠ k) :
    mapLookup (addToMap m k v) k₁ = mapLookup m k₁ := by
  induction m with
  | nil => simp [addToMap, mapLookup, h]
  | cons kv rest ih =>
    obtain ⟨k', vs⟩ := kv
    by_cases h2 : k' = k
    · subst h2
      simp [addToMap, mapLookup, h, ih]
    · simp only [addToMap, if_neg h2, mapLookup, ih]

theorem addToMap_ne_nil {α : Type} (m : List (String × List α)) (k : String)
    (v : α) : addToMap m k v ≠ [] := by
  cases m with
  | nil => simp [addToMap]
  | cons kv rest =>
    obtain ⟨k', vs⟩ := kv
    simp only [addToMap]
    split <;> simp

theorem convertRules_lookup_self (domain name : String) (rules : List ExposeRule) :
    ∀ tcp http,
      mapLookup (convertRules domain name rules tcp http).1 name
          = extendEntry (mapLookup tcp name) (tcpPortsOf rules) ∧
      mapLookup (convertRules domain name rules tcp http).2 name
          = extendEntry (mapLookup http name) (httpPairsOf domain rules) := by
  induction rules with
  | nil => intro tcp http; simp [convertRules, tcpPortsOf, httpPairsOf, extendEntry]
  | cons rule rest ih =>
    obtain ⟨t, kind⟩ := rule
    intro tcp http
    cases kind with
    | tcp =>
      refine ⟨?_, ?_⟩
      · rw [show convertRules domain name (⟨t, ExposeKind.tcp⟩ :: rest) tcp http
            = convertRules domain name rest (addToMap tcp name t) http from rfl,
          (ih _ _).1, mapLookup_addToMap_self, extendEntry_some]
        simp [tcpPortsOf, extendEntry, List.append_assoc]
      · rw [show convertRules domain name (⟨t, ExposeKind.tcp⟩ :: rest) tcp http
            = convertRules domain name rest (addToMap tcp name t) http from rfl,
          (ih _ _).2]
        simp [httpPairsOf]
    | http h =>
      refine ⟨?_, ?_⟩
      · rw [show convertRules domain name (⟨t, ExposeKind.http h⟩ :: rest) tcp http
            = convertRules domain name rest tcp
                (addToMap http name (t, fullDomain domain h)) from rfl,
          (ih _ _).1]
        simp [tcpPortsOf]
      · rw [show convertRules domain name (⟨t, ExposeKind.http h⟩ :: rest) tcp http
            = convertRules domain name rest tcp
                (addToMap http name (t, fullDomain domain h)) from rfl,
          (ih _ _).2, mapLookup_addToMap_self, extendEntry_some]
        simp [httpPairsOf, extendEntry, List.append_assoc]

theorem convertRules_lookup_ne (domain name k : String) (h : k ≠ name)
    (rules : List ExposeRule) :
    ∀ tcp http,
      mapLookup (convertRules domain name rules tcp http).1 k = mapLookup tcp k ∧
      mapLookup (convertRules domain name rules tcp http).2 k = mapLookup http k := by
  induction rules with
  | nil => intro tcp http; exact ⟨rfl, rfl⟩
  | cons rule rest ih =>
    obtain ⟨t, kind⟩ := rule
    intro tcp http
    cases kind with
    | tcp =>
      refine ⟨?_, ?_⟩
      · rw [show convertRules domain name (⟨t, ExposeKind.tcp⟩ :: rest) tcp http
            = convertRules domain name rest (addToMap tcp name t) http from rfl,
          (ih _ _).1, mapLookup_addToMap_ne _ _ h]
      · exact (ih _ _).2
    | http hs =>
      refine ⟨?_, ?_⟩
      · exact (ih _ _).1
      · rw [show convertRules domain name (⟨t, ExposeKind.http hs⟩ :: rest) tcp http
            = convertRules domain name rest tcp
                (addToMap http name (t, fullDomain domain hs)) from rfl,
          (ih _ _).2, mapLookup_addToMap_ne _ _ h]

theorem convertExpose_lookup_ne (domain k : String)
    (expose : List (String × List ExposeRule)) (h : ∀ p ∈ expose, p.1 ≠ k) :
    ∀ tcp http,
      mapLookup (convertExpose domain expose tcp http).1 k = mapLookup tcp k ∧
      mapLookup (convertExpose domain expose tcp http).2 k = mapLookup http k := by
  induction expose with
  | nil => intro tcp http; exact ⟨rfl, rfl⟩
  | cons p rest ih =>
    obtain ⟨n, rules⟩ := p
    intro tcp http
    have hn : k ≠ n := fun hk => h (n, rules) (by simp) (by simp [hk])
    have hrest : ∀ q ∈ rest, q.1 ≠ k := fun q hq => h q (by simp [hq])
    have hr := convertRules_lookup_ne domain n k hn rules tcp http
    refine ⟨?_, ?_⟩
    · rw [show convertExpose domain ((n, rules) :: rest) tcp http
          = convertExpose domain rest (convertRules domain n rules tcp http).1
              (convertRules domain n rules tcp http).2 from rfl,
        (ih hrest _ _).1, hr.1]
    · rw [show convertExpose domain ((n, rules) :: rest) tcp http
          = convertExpose domain rest (convertRules domain n rules tcp http).1
              (convertRules domain n rules tcp http).2 from rfl,
        (ih hrest _ _).2, hr.2]

theorem convertExpose_lookup (domain name : String) (rules : List ExposeRule)
    (expose : List (String × List ExposeRule))
    (hkeys : (expose.map Prod.fst).Nodup) (hmem : (name, rules) ∈ expose) :
    ∀ tcp http,
      mapLookup (convertExpose domain expose tcp http).1 name
          = extendEntry (mapLookup tcp name) (tcpPortsOf rules) ∧
      mapLookup (convertExpose domain expose tcp http).2 name
          = extendEntry (mapLookup http name) (httpPairsOf domain rules) := by
  induction expose with
  | nil => cases hmem
  | cons p rest ih =>
    obtain ⟨n, rules'⟩ := p
    intro tcp http
    rw [List.map_cons, List.nodup_cons] at hkeys
    rcases List.mem_cons.mp hmem with hhead | htail
    · obtain ⟨rfl, rfl⟩ := Prod.mk.injEq .. ▸ hhead
      have hrest : ∀ q ∈ rest, q.1 ≠ name := by
        intro q hq hq1
        have hmm : q.1 ∈ rest.map Prod.fst := List.mem_map_of_mem Prod.fst hq
        rw [hq1] at hmm
        exact hkeys.1 hmm
      have hself := convertRules_lookup_self domain name rules tcp http
      have hpres := convertExpose_lookup_ne domain name rest hrest
          (convertRules domain name rules tcp http).1
          (convertRules domain name rules tcp http).2
      refine ⟨?_, ?_⟩
      · rw [show convertExpose domain ((name, rules) :: rest) tcp http
            = convertExpose domain rest (convertRules domain name rules tcp http).1
                (convertRules domain name rules tcp http).2 from rfl,
          hpres.1, hself.1]
      · rw [show convertExpose domain ((name, rules) :: rest) tcp http
            = convertExpose domain rest (convertRules domain name rules tcp http).1
                (convertRules domain name rules tcp http).2 from rfl,
          hpres.2, hself.2]
    · have hn : name ≠ n := by
        intro hk
        have hmm : name ∈ rest.map Prod.fst := List.mem_map_of_mem Prod.fst htail
        rw [hk] at hmm
        exact hkeys.1 hmm
      have hr := convertRules_lookup_ne domain n name hn rules' tcp http
      have := ih hkeys.2 htail (convertRules domain n rules' tcp http).1
        (convertRules domain n rules' tcp http).2
      refine ⟨?_, ?_⟩
      · rw [show convertExpose domain ((n, rules') :: rest) tcp http
            = convertExpose domain rest (convertRules domain n rules' tcp http).1
                (convertRules domain n rules' tcp http).2 from rfl,
          this.1, hr.1]
      · rw [show convertExpose domain ((n, rules') :: rest) tcp http
            = convertExpose domain rest (convertRules domain n rules' tcp http).1
                (convertRules domain n rules' tcp http).2 from rfl,
          this.2, hr.2]

/-- C5: Exposure translation groups rules by container name: tcp rules
collapse to the container's list of target ports in first-seen order with
duplicates kept; http rules collapse to the container's `[port, fqdn]` pairs,
where the fqdn is the raw domain verbatim when the rule gives one explicitly,
otherwise `"<subdomain>.<projectDomain>"` when a project-level domain is
configured, otherwise the bare subdomain.  (Keys of the `expose` dict are
distinct, as dict keys are.) -/
theorem exposure_translation_grouped (domain : String) (c : Challenge)
    (hkeys : (c.expose.map Prod.fst).Nodup)
    (name : String) (rules : List ExposeRule)
    (hmem : (name, rules) ∈ c.expose) :
    mapLookup (convertExpose domain c.expose [] []).1 name
        = (if tcpPortsOf rules = [] then none else some (tcpPortsOf rules)) ∧
    mapLookup (convertExpose domain c.expose [] []).2 name
        = (if httpPairsOf domain rules = [] then none
           else some (httpPairsOf domain rules)) ∧
    (∀ d, fullDomain domain (HttpSpec.raw d) = d) ∧
    (domain ≠ "" →
      ∀ s, fullDomain domain (HttpSpec.subdomain s) = s ++ "." ++ domain) ∧
    (domain = "" → ∀ s, fullDomain domain (HttpSpec.subdomain s) = s) := by
  have h := convertExpose_lookup domain name rules c.expose hkeys hmem [] []
  refine ⟨?_, ?_, fun d => rfl, fun hd s => ?_, fun hd s => ?_⟩
  · rw [h.1]
    show extendEntry none _ = _
    rw [extendEntry_none]
  · rw [h.2]
    show extendEntry none _ = _
    rw [extendEntry_none]
  · simp [fullDomain, hd]
  · simp [fullDomain, hd]

/-- Closed instance of `exposure_translation_grouped` at the spec's examples:
container `svc` with tcp rules for ports 1337 and 1338 and one http rule for
port 80 on subdomain `web` under project domain `example.com` yields
`tcp["svc"] = [1337, 1338]` and `http["svc"] = [[80, "web.example.com"]]`;
a raw http rule keeps `custom.other.com` verbatim. -/
theorem exposure_translation_grouped_witness :
    mapLookup (convertExpose "example.com"
        (Challenge.expose ⟨"c", "c", none, true, [],
          [("svc", [⟨1337, ExposeKind.tcp⟩, ⟨1338, ExposeKind.tcp⟩,
                    ⟨80, ExposeKind.http (HttpSpec.subdomain "web")⟩,
                    ⟨443, ExposeKind.http (HttpSpec.raw "custom.other.com")⟩])]⟩)
        [] []).1 "svc" = some [1337, 1338] ∧
    mapLookup (convertExpose "example.com"
        (Challenge.expose ⟨"c", "c", none, true, [],
          [("svc", [⟨1337, ExposeKind.tcp⟩, ⟨1338, ExposeKind.tcp⟩,
                    ⟨80, ExposeKind.http (HttpSpec.subdomain "web")⟩,
                    ⟨443, ExposeKind.http (HttpSpec.raw "custom.other.com")⟩])]⟩)
        [] []).2 "svc" = some [(80, "web.example.com"), (443, "custom.other.com")] := by
  have h := exposure_translation_grouped "example.com"
    ⟨"c", "c", none, true, [],
      [("svc", [⟨1337, ExposeKind.tcp⟩, ⟨1338, ExposeKind.tcp⟩,
                ⟨80, ExposeKind.http (HttpSpec.subdomain "web")⟩,
                ⟨443, ExposeKind.http (HttpSpec.raw "custom.other.com")⟩])]⟩
    (by simp) "svc"
    [⟨1337, ExposeKind.tcp⟩, ⟨1338, ExposeKind.tcp⟩,
     ⟨80, ExposeKind.http (HttpSpec.subdomain "web")⟩,
     ⟨443, ExposeKind.http (HttpSpec.raw "custom.other.com")⟩]
    (by simp)
  exact ⟨h.1.trans (by decide), h.2.1.trans (by decide)⟩

theorem convertRules_eq_nil (domain name : String) (rules : List ExposeRule) :
    ∀ tcp http,
      ((convertRules domain name rules tcp http).1 = [] ↔
        tcp = [] ∧ tcpPortsOf rules = []) ∧
      ((convertRules domain name rules tcp http).2 = [] ↔
        http = [] ∧ httpPairsOf domain rules = []) := by
  induction rules with
  | nil => intro tcp http; simp [convertRules, tcpPortsOf, httpPairsOf]
  | cons rule rest ih =>
    obtain ⟨t, kind⟩ := rule
    intro tcp http
    cases kind with
    | tcp =>
      refine ⟨?_, ?_⟩
      · rw [show convertRules domain name (⟨t, ExposeKind.tcp⟩ :: rest) tcp http
            = convertRules domain name rest (addToMap tcp name t) http from rfl,
          (ih _ _).1]
        simp [tcpPortsOf, addToMap_ne_nil]
      · rw [show convertRules domain name (⟨t, ExposeKind.tcp⟩ :: rest) tcp http
            = convertRules domain name rest (addToMap tcp name t) http from rfl,
          (ih _ _).2]
        simp [httpPairsOf]
    | http hs =>
      refine ⟨?_, ?_⟩
      · rw [show convertRules domain name (⟨t, ExposeKind.http hs⟩ :: rest) tcp http
            = convertRules domain name rest tcp
                (addToMap http name (t, fullDomain domain hs)) from rfl,
          (ih _ _).1]
        simp [tcpPortsOf]
      · rw [show convertRules domain name (⟨t, ExposeKind.http hs⟩ :: rest) tcp http
            = convertRules domain name rest tcp
                (addToMap http name (t, fullDomain domain hs)) from rfl,
          (ih _ _).2]
        simp [httpPairsOf, addToMap_ne_nil]

theorem convertExpose_eq_nil (domain : String)
    (expose : List (String × List ExposeRule)) :
    ∀ tcp http,
      ((convertExpose domain expose tcp http).1 = [] ↔
        tcp = [] ∧ ∀ p ∈ expose, tcpPortsOf p.2 = []) ∧
      ((convertExpose domain expose tcp http).2 = [] ↔
        http = [] ∧ ∀ p ∈ expose, httpPairsOf domain p.2 = []) := by
  induction expose with
  | nil => intro tcp http; simp [convertExpose]
  | cons p rest ih =>
    obtain ⟨n, rules⟩ := p
    intro tcp http
    refine ⟨?_, ?_⟩
    · rw [show convertExpose domain ((n, rules) :: rest) tcp http
          = convertExpose domain rest (convertRules domain n rules tcp http).1
              (convertRules domain n rules tcp http).2 from rfl,
        (ih _ _).1, (convertRules_eq_nil domain n rules tcp http).1]
      simp only [List.mem_cons, forall_eq_or_imp, and_assoc]
    · rw [show convertExpose domain ((n, rules) :: rest) tcp http
          = convertExpose domain rest (convertRules domain n rules tcp http).1
              (convertRules domain n rules tcp http).2 from rfl,
        (ih _ _).2, (convertRules_eq_nil domain n rules tcp http).2]
      simp only [List.mem_cons, forall_eq_or_imp, and_assoc]

theorem tcpPortsOf_eq_nil (rules : List ExposeRule) :
    tcpPortsOf rules = [] ↔ ∀ r ∈ rules, r.kind ≠ ExposeKind.tcp := by
  rw [tcpPortsOf, List.filterMap_eq_nil_iff]
  refine forall_congr' fun r => imp_congr_right fun _ => ?_
  cases hk : r.kind <;> simp

theorem httpPairsOf_eq_nil (domain : String) (rules : List ExposeRule) :
    httpPairsOf domain rules = [] ↔
      ∀ r ∈ rules, ∀ h, r.kind ≠ ExposeKind.http h := by
  rw [httpPairsOf, List.filterMap_eq_nil_iff]
  refine forall_congr' fun r => imp_congr_right fun _ => ?_
  cases hk : r.kind <;> simp

/-- C8: The translated payload contains the `tcp` key iff at least one tcp
exposure rule exists, and the `http` key iff at least one http exposure rule
exists; an empty `tcp` or `http` map is never emitted. -/
theorem payload_omits_empty_expose_maps (domain : String) (c : Challenge) :
    ((convert_challenge_config domain c).tcp ≠ none ↔
      ∃ p ∈ c.expose, ∃ r ∈ p.2, r.kind = ExposeKind.tcp) ∧
    ((convert_challenge_config domain c).http ≠ none ↔
      ∃ p ∈ c.expose, ∃ r ∈ p.2, ∃ h, r.kind = ExposeKind.http h) ∧
    (convert_challenge_config domain c).tcp ≠ some [] ∧
    (convert_challenge_config domain c).http ≠ some [] := by
  have h := convertExpose_eq_nil domain c.expose [] []
  refine ⟨?_, ?_, ?_, ?_⟩
  · rw [show (convert_challenge_config domain c).tcp
        = (if (convertExpose domain c.expose [] []).1 = [] then none
           else some (convertExpose domain c.expose [] []).1) from rfl]
    split <;> rename_i hsplit
    · rw [h.1] at hsplit
      simp only [ne_eq, not_true_eq_false, false_iff]
      push_neg
      intro p hp r hr
      have := (tcpPortsOf_eq_nil p.2).mp (hsplit.2 p hp) r hr
      exact this
    · rw [h.1] at hsplit
      simp only [ne_eq, reduceCtorEq, not_false_eq_true, true_iff]
      by_contra hno
      push_neg at hno
      refine hsplit ⟨rfl, fun p hp => (tcpPortsOf_eq_nil p.2).mpr fun r hr => ?_⟩
      exact hno p hp r hr
  · rw [show (convert_challenge_config domain c).http
        = (if (convertExpose domain c.expose [] []).2 = [] then none
           else some (convertExpose domain c.expose [] []).2) from rfl]
    split <;> rename_i hsplit
    · rw [h.2] at hsplit
      simp only [ne_eq, not_true_eq_false, false_iff]
      push_neg
      intro p hp r hr hh
      have := (httpPairsOf_eq_nil domain p.2).mp (hsplit.2 p hp) r hr hh
      exact this
    · rw [h.2] at hsplit
      simp only [ne_eq, reduceCtorEq, not_false_eq_true, true_iff]
      by_contra hno
      push_neg at hno
      refine hsplit ⟨rfl, fun p hp =>
        (httpPairsOf_eq_nil domain p.2).mpr fun r hr hh => ?_⟩
      exact hno p hp r hr hh
  · rw [show (convert_challenge_config domain c).tcp
        = (if (convertExpose domain c.expose [] []).1 = [] then none
           else some (convertExpose domain c.expose [] []).1) from rfl]
    split <;> rename_i hsplit <;> simp [hsplit]
  · rw [show (convert_challenge_config domain c).http
        = (if (convertExpose domain c.expose [] []).2 = [] then none
           else some (convertExpose domain c.expose [] []).2) from rfl]
    split <;> rename_i hsplit <;> simp [hsplit]

/-! ## The remote API client (`InstancerClient`)

`delete_challenge` issues a DELETE request and calls
`requests.Response.raise_for_status()` on the response; it is modelled as a
function of the response's status code.  `raise_for_status` (a `requests`
library collaborator) raises `HTTPError` exactly for status codes in
400..599. -/

/-- `requests.Response.raise_for_status()` as a function of the status code:
an `HTTPError` carrying the status for 4xx and 5xx codes, success otherwise. -/
def raise_for_status (status_code : Nat) : Except Nat Unit :=
  if 400 ≤ status_code ∧ status_code < 600 then Except.error status_code
  else Except.ok ()

/-- `InstancerClient.delete_challenge`, observed through the response status
code of its DELETE request: the body is just `resp.raise_for_status()`. -/
def delete_challenge (status_code : Nat) : Except Nat Unit :=
  raise_for_status status_code

/-- C3 counterexample: on a 404 response, `delete_challenge` does not return
successfully — `raise_for_status` raises `HTTPError` for 404, and there is no
404 handling in `delete_challenge` (unlike `get_challenge`). -/
theorem delete_challenge_404_errors :
    delete_challenge 404 = Except.error 404 ∧
    delete_challenge 404 ≠ Except.ok () :=
  ⟨rfl, fun h => Except.noConfusion h⟩

/-- C3 (amended): `delete_challenge(id)` succeeds iff the response status is
outside 400..599; every 4xx/5xx response, the 404/not-found response included,
raises an error. -/
theorem delete_challenge_ok_iff (status_code : Nat) :
    (delete_challenge status_code = Except.ok () ↔
      status_code < 400 ∨ 600 ≤ status_code) ∧
    (400 ≤ status_code → status_code < 600 →
      delete_challenge status_code = Except.error status_code) := by
  constructor
  · rw [delete_challenge, raise_for_status]
    split <;> rename_i h
    · simp only [reduceCtorEq, false_iff]
      omega
    · simp only [true_iff]
      omega
  · intro h1 h2
    rw [delete_challenge, raise_for_status, if_pos ⟨h1, h2⟩]

/-- Closed instance of `delete_challenge_ok_iff`: a 204 response succeeds, a
500 response errors. -/
theorem delete_challenge_ok_iff_witness :
    delete_challenge 204 = Except.ok () ∧ delete_challenge 500 = Except.error 500 :=
  ⟨(delete_challenge_ok_iff 204).1.mpr (Or.inl (by decide)),
   (delete_challenge_ok_iff 500).2 (by decide) (by decide)⟩

/-! ## Login-token generation (`InstancerClient.generate_login_token`)

The function builds the compact JSON `{"k":16,"t":<unix seconds>,"d":<team
id>}` (`json.dumps` with separators `(",", ":")`), draws a fresh 12-byte
nonce, encrypts the UTF-8 bytes of the JSON with AES-256-GCM, and returns the
base64 of `nonce || ciphertext || tag`.  The current time, the nonce and the
AES-GCM cipher (a pycryptodome collaborator) are parameters of the model; the
key argument is the already base64-decoded key bytes (`b64decode` is a
standard-library collaborator).  Bytes are `Nat`s below 256. -/

/-- Lowercase hex digit, as Python's `\u` escapes use. -/
def hexDigit (n : Nat) : Char :=
  if n < 10 then Char.ofNat (48 + n) else Char.ofNat (87 + n)

/-- Four lowercase hex digits of a number below 0x10000. -/
def hex4 (n : Nat) : String :=
  String.mk [hexDigit (n / 4096 % 16), hexDigit (n / 256 % 16),
             hexDigit (n / 16 % 16), hexDigit (n % 16)]

/-- `json.dumps` escaping of one character (`ensure_ascii=True`, the default):
printable ASCII other than quote and backslash verbatim; the short escapes of
the escape table; other characters as `\uXXXX`, astral ones as a surrogate
pair. -/
def pyJsonEscapeChar (c : Char) : String :=
  if c = '"' then "\\\""
  else if c = '\\' then "\\\\"
  else if c = '\x08' then "\\b"
  else if c = '\x0c' then "\\f"
  else if c = '\n' then "\\n"
  else if c = '\r' then "\\r"
  else if c = '\t' then "\\t"
  else if 32 ≤ c.toNat ∧ c.toNat ≤ 126 then String.mk [c]
  else if c.toNat < 65536 then "\\u" ++ hex4 c.toNat
  else
    "\\u" ++ hex4 (55296 + (c.toNat - 65536) / 1024) ++
      "\\u" ++ hex4 (56320 + (c.toNat - 65536) % 1024)

/-- `json.dumps` of a string value. -/
def pyJsonString (s : String) : String :=
  "\"" ++ String.join (s.data.map pyJsonEscapeChar) ++ "\""

/-- The plaintext `json.dumps(login_token, separators=(",", ":"))` for
`login_token = {"k": 16, "t": t, "d": admin_team_id}`: compact separators and
insertion order `k`, `t`, `d`. -/
def loginTokenJson (admin_team_id : String) (t : Int) : String :=
  "\x7b\"k\":16,\"t\":" ++ toString t ++ ",\"d\":" ++
    pyJsonString admin_team_id ++ "\x7d"

/-- UTF-8 encoding (Python's `str.encode()`), bytes as `Nat`s. -/
def utf8Bytes (s : String) : List Nat :=
  s.data.flatMap fun c =>
    let n := c.toNat
    if n < 128 then [n]
    else if n < 2048 then [192 + n / 64, 128 + n % 64]
    else if n < 65536 then [224 + n / 4096, 128 + n / 64 % 64, 128 + n % 64]
    else [240 + n / 262144, 128 + n / 4096 % 64, 128 + n / 64 % 64, 128 + n % 64]

/-- The base64 alphabet. -/
def base64Chars : List Char :=
  "ABCDEFGHIJKLMNOPQRSTUVWXYZabcdefghijklmnopqrstuvwxyz0123456789+/".data

/-- The base64 digit of a 6-bit group. -/
def b64Char (n : Nat) : Char := base64Chars.getD n 'A'

/-- Standard base64 with padding (`base64.b64encode`). -/
def b64encode : List Nat → String
  | [] => ""
  | [a] => String.mk [b64Char (a / 4), b64Char (a % 4 * 16), '=', '=']
  | [a, b] =>
    String.mk [b64Char (a / 4), b64Char (a % 4 * 16 + b / 16),
               b64Char (b % 16 * 4), '=']
  | a :: b :: c :: rest =>
    String.mk [b64Char (a / 4), b64Char (a % 4 * 16 + b / 16),
               b64Char (b % 16 * 4 + c / 64), b64Char (c % 64)] ++ b64encode rest

/-- An AES-GCM `encrypt_and_digest`: from key, nonce and plaintext bytes to
`(ciphertext, tag)`.  The cipher is a pycryptodome collaborator, so the model
takes it as a parameter. -/
def Cipher : Type := List Nat → List Nat → List Nat → List Nat × List Nat

/-- `InstancerClient.generate_login_token`, with the decoded key bytes, the
current unix time `t` and the drawn `nonce` as inputs: rejects keys whose
decoded length is not exactly 32 bytes with the `ValueError` the source
raises; otherwise returns the base64 of `nonce || ciphertext || tag` for the
encryption of the compact login JSON. -/
def generate_login_token (cipher : Cipher) (key : List Nat)
    (admin_team_id : String) (t : Int) (nonce : List Nat) :
    Except String String :=
  if key.length ≠ 32 then
    Except.error "Invalid secret login key. Must be exactly 32 bytes, base64 encoded"
  else
    let json_str := loginTokenJson admin_team_id t
    let em := cipher key nonce (utf8Bytes json_str)
    Except.ok (b64encode (nonce ++ em.1 ++ em.2))

/-- C4: `generate_login_token` fails with the invalid-key-length error iff the
decoded key is not exactly 32 bytes; on a 32-byte key it returns the base64 of
`nonce || ciphertext || tag`, where `(ciphertext, tag)` is the AES-GCM
encryption, under the key and the 12-byte nonce, of the UTF-8 bytes of the
compact JSON `{"k":16,"t":<t>,"d":<team id>}` with key order k, t, d. -/
theorem generate_login_token_spec (cipher : Cipher) (key : List Nat)
    (admin_team_id : String) (t : Int) (nonce : List Nat) :
    (generate_login_token cipher key admin_team_id t nonce =
        Except.error
          "Invalid secret login key. Must be exactly 32 bytes, base64 encoded"
      ↔ key.length ≠ 32) ∧
    (key.length = 32 →
      generate_login_token cipher key admin_team_id t nonce =
        Except.ok (b64encode (nonce ++
          (cipher key nonce (utf8Bytes (loginTokenJson admin_team_id t))).1 ++
          (cipher key nonce (utf8Bytes (loginTokenJson admin_team_id t))).2))) := by
  constructor
  · rw [generate_login_token]
    split <;> rename_i h
    · simp only [true_iff]
      exact h
    · simp only [reduceCtorEq, false_iff, not_not]
      omega
  · intro h32
    rw [generate_login_token, if_neg (by omega)]

/-- Closed instance of `generate_login_token_spec`: a 32-byte all-zero key is
accepted and the token is the base64 of `nonce || ciphertext || tag`; a
16-byte key is rejected with the invalid-key-length error. -/
theorem generate_login_token_spec_witness :
    generate_login_token (fun _ _ p => (p, List.replicate 16 0))
        (List.replicate 32 0) "admin" 0 (List.replicate 12 0) =
      Except.ok (b64encode (List.replicate 12 0 ++
        utf8Bytes (loginTokenJson "admin" 0) ++ List.replicate 16 0)) ∧
    generate_login_token (fun _ _ p => (p, List.replicate 16 0))
        (List.replicate 16 0) "admin" 0 (List.replicate 12 0) =
      Except.error
        "Invalid secret login key. Must be exactly 32 bytes, base64 encoded" :=
  ⟨(generate_login_token_spec (fun _ _ p => (p, List.replicate 16 0))
      (List.replicate 32 0) "admin" 0 (List.replicate 12 0)).2 (by decide),
   (generate_login_token_spec (fun _ _ p => (p, List.replicate 16 0))
      (List.replicate 16 0) "admin" 0 (List.replicate 12 0)).1.mpr (by decide)⟩

/-! ## The reconciliation engine (`ContainerBackend.commit`)

`commit(dry_run, partial)` is modelled by the trace of remote operations it
issues.  The remote listing that `list_challenges` would return is an input:
each record is `remote.get("challenge_info")` (`none` when the key is absent)
holding `challenge_info.get("id")` (`none` when absent; the code also treats
an empty-string id as missing, via the `if remote_id` truthiness test).
A record without `challenge_info` makes `challenge_info.get("id")` raise
`AttributeError`, which the surrounding `try` catches — ending the cleanup
loop early with a warning. -/

/-- A remote operation the commit issues: the dry-run "Would deploy" report,
a `create_challenge` call, the `list_challenges` call, or a
`delete_challenge` call. -/
inductive Action where
  | report (id : String)
  | create (id : String)
  | listRemote
  | delete (id : String)
deriving DecidableEq

/-- One record of the remote listing: `record.get("challenge_info")`, holding
`challenge_info.get("id")`. -/
abbrev RemoteRecord := Option (Option String)

/-- The selection filter of the commit loop: the challenge resolves to the
`"instancer"` backend (`_should_handle_challenge`), its `deployed` flag is
true, and its container map is non-empty. -/
def eligible (p : RouterState) (c : Challenge) : Bool :=
  (get_backend_name_for_challenge p c == some "instancer") && c.deployed &&
    !c.containers.isEmpty

/-- The desired-id set (`deployed_ids`): ids of the selected challenges. -/
def deployedIds (p : RouterState) (challenges : List Challenge) : List String :=
  (challenges.filter (eligible p)).map Challenge.id

/-- The cleanup loop over the remote listing: records whose `challenge_info`
carries a truthy id not in `deployed_ids` are deleted; records with an id that
is missing or empty are skipped; a record without `challenge_info` raises,
ending the loop (the exception is caught and reported as a warning). -/
def cleanupDeletes (deployed : List String) : List RemoteRecord → List Action
  | [] => []
  | none :: _ => []
  | some info :: rest =>
    match info with
    | some id =>
      if id ≠ "" ∧ id ∉ deployed then
        Action.delete id :: cleanupDeletes deployed rest
      else cleanupDeletes deployed rest
    | none => cleanupDeletes deployed rest

/-- `ContainerBackend.commit`: push every selected challenge (report only on a
dry run), then — only when the run is neither partial nor dry and at least one
challenge was selected — list the remote challenges and delete the unknown
ones. -/
def commit (p : RouterState) (challenges : List Challenge)
    (dry_run partialRun : Bool) (remote : List RemoteRecord) : List Action :=
  ((challenges.filter (eligible p)).map fun c =>
    if dry_run then Action.report c.id else Action.create c.id) ++
  (if partialRun = false ∧ dry_run = false ∧ deployedIds p challenges ≠ [] then
    Action.listRemote :: cleanupDeletes (deployedIds p challenges) remote
  else [])

/-- The ids deleted along a trace. -/
def deletesOf : List Action → List String
  | [] => []
  | Action.delete id :: rest => id :: deletesOf rest
  | _ :: rest => deletesOf rest

/-- The ids carried by the records of a remote listing. -/
def remoteIds (remote : List RemoteRecord) : List String :=
  remote.filterMap fun r => r.bind id

theorem deletesOf_append (xs ys : List Action) :
    deletesOf (xs ++ ys) = deletesOf xs ++ deletesOf ys := by
  induction xs with
  | nil => rfl
  | cons a rest ih => cases a <;> simp [deletesOf, ih]

theorem deletesOf_pushes (l : List Challenge) (dry_run : Bool) :
    deletesOf (l.map fun c =>
      if dry_run then Action.report c.id else Action.create c.id) = [] := by
  cases dry_run <;>
  · induction l with
    | nil => rfl
    | cons c rest ih => simpa [deletesOf] using ih

theorem delete_not_mem_pushes (l : List Challenge) (dry_run : Bool) (i : String) :
    Action.delete i ∉ l.map fun c =>
      if dry_run then Action.report c.id else Action.create c.id := by
  intro h
  obtain ⟨c, _, hc⟩ := List.mem_map.mp h
  cases dry_run <;> simp at hc

theorem cleanupDeletes_wf (deployed : List String) (remote : List RemoteRecord)
    (hwf : ∀ r ∈ remote, ∃ i, r = some (some i) ∧ i ≠ "") :
    cleanupDeletes deployed remote =
      ((remoteIds remote).filter fun i => decide (i ∉ deployed)).map
        Action.delete := by
  induction remote with
  | nil => rfl
  | cons r rest ih =>
    obtain ⟨i, rfl, hi⟩ := hwf r (List.mem_cons_self r rest)
    have hrest := ih fun q hq => hwf q (List.mem_cons_of_mem _ hq)
    rw [show remoteIds (some (some i) :: rest) = i :: remoteIds rest from rfl]
    by_cases hmem : i ∈ deployed
    · rw [show cleanupDeletes deployed (some (some i) :: rest)
          = cleanupDeletes deployed rest from
            if_neg fun hc => hc.2 hmem, hrest]
      simp [hmem]
    · rw [show cleanupDeletes deployed (some (some i) :: rest)
          = Action.delete i :: cleanupDeletes deployed rest from
            if_pos ⟨hi, hmem⟩, hrest]
      simp [hmem]

/-- C2: For every commit invoked in partial mode, no delete operation is ever
issued against the remote backend, regardless of the desired-id set or the
remote state. -/
theorem partial_run_issues_no_deletes (p : RouterState)
    (challenges : List Challenge) (dry_run : Bool) (remote : List RemoteRecord)
    (i : String) : Action.delete i ∉ commit p challenges dry_run true remote := by
  intro h
  rw [commit, if_neg (fun hc => Bool.noConfusion hc.1), List.append_nil] at h
  exact delete_not_mem_pushes _ dry_run i h

/-- C9: A dry-run commit performs zero create/update/delete network calls of
any kind (its trace is report lines only) and reports the id of every eligible
challenge (resolved to this backend, deployed flag true, non-empty container
map). -/
theorem dry_run_reports_eligible_only (p : RouterState)
    (challenges : List Challenge) (partialRun : Bool)
    (remote : List RemoteRecord) :
    commit p challenges true partialRun remote =
      (challenges.filter (eligible p)).map fun c => Action.report c.id := by
  rw [commit, if_neg (fun hc => Bool.noConfusion hc.2.1), List.append_nil]
  simp

/-- C10: If no challenge is selected for this backend during a commit, then
even on a full run (neither dry nor partial) the orphan-cleanup phase is
skipped entirely: no remote listing is requested and no remote challenge is
deleted. -/
theorem empty_desired_skips_cleanup (p : RouterState)
    (challenges : List Challenge) (remote : List RemoteRecord)
    (h : deployedIds p challenges = []) :
    Action.listRemote ∉ commit p challenges false false remote ∧
    ∀ i, Action.delete i ∉ commit p challenges false false remote := by
  have hcond : ¬(false = false ∧ false = false ∧ deployedIds p challenges ≠ []) :=
    fun hc => hc.2.2 h
  constructor
  · intro hmem
    rw [commit, if_neg hcond, List.append_nil] at hmem
    obtain ⟨c, _, hc⟩ := List.mem_map.mp hmem
    simp at hc
  · intro i hmem
    rw [commit, if_neg hcond, List.append_nil] at hmem
    exact delete_not_mem_pushes _ false i hmem

/-- Closed instance of `empty_desired_skips_cleanup`: with no challenges at
all and a non-empty remote listing, a full run lists nothing and deletes
nothing. -/
theorem empty_desired_skips_cleanup_witness :
    deployedIds ⟨none, ["instancer"]⟩ [] = [] ∧
    (Action.listRemote ∉
        commit ⟨none, ["instancer"]⟩ [] false false [some (some "C")] ∧
      ∀ i, Action.delete i ∉
        commit ⟨none, ["instancer"]⟩ [] false false [some (some "C")]) :=
  ⟨rfl, empty_desired_skips_cleanup ⟨none, ["instancer"]⟩ [] [some (some "C")] rfl⟩

/-- C1 counterexample: a full (neither dry nor partial) commit with an empty
desired-id set and a remote listing holding `C` deletes nothing at all — the
cleanup phase is guarded by `deployed_ids` being non-empty — although the
claim as stated requires `C` (a remote id outside the desired set) to be
deleted. -/
theorem full_run_empty_selection_counterexample :
    Action.delete "C" ∉
      commit ⟨none, ["instancer"]⟩ [] false false [some (some "C")] := by
  decide

/-- C1 (amended): For every commit run that is neither a dry run nor a partial
run in which at least one challenge was selected, after the selected
challenges have been pushed, the ids deleted are exactly the (non-empty) ids
present in the remote listing that are not in the desired-id set — assuming
each remote record carries a `challenge_info` with a non-empty id — and no id
in the desired-id set is ever deleted. -/
theorem full_run_deletes_exactly_orphans (p : RouterState)
    (challenges : List Challenge) (remote : List RemoteRecord)
    (hsel : deployedIds p challenges ≠ [])
    (hwf : ∀ r ∈ remote, ∃ i, r = some (some i) ∧ i ≠ "") :
    deletesOf (commit p challenges false false remote) =
      (remoteIds remote).filter (fun i => decide (i ∉ deployedIds p challenges)) ∧
    ∀ i ∈ deployedIds p challenges,
      Action.delete i ∉ commit p challenges false false remote := by
  have hcond : (false = false ∧ false = false ∧ deployedIds p challenges ≠ []) :=
    ⟨rfl, rfl, hsel⟩
  have hclean := cleanupDeletes_wf (deployedIds p challenges) remote hwf
  constructor
  · rw [commit, if_pos hcond, deletesOf_append, deletesOf_pushes,
      show deletesOf (Action.listRemote ::
          cleanupDeletes (deployedIds p challenges) remote)
        = deletesOf (cleanupDeletes (deployedIds p challenges) remote) from rfl,
      hclean, List.nil_append]
    induction (remoteIds remote).filter
        (fun i => decide (i ∉ deployedIds p challenges)) with
    | nil => rfl
    | cons j rest ih => simp [deletesOf, ih]
  · intro i hid hmem
    rw [commit, if_pos hcond] at hmem
    rcases List.mem_append.mp hmem with hp | hc
    · exact delete_not_mem_pushes _ false i hp
    · rcases List.mem_cons.mp hc with hl | hcl
      · exact Action.noConfusion hl
      · rw [hclean] at hcl
        obtain ⟨j, hj, hdel⟩ := List.mem_map.mp hcl
        have hji : j = i := Action.delete.inj hdel
        subst hji
        exact (of_decide_eq_true (List.mem_filter.mp hj).2) hid

/-- Closed instance of `full_run_deletes_exactly_orphans`: desired set
`{A, B}`, remote listing `{A, B, C}` — the full run deletes exactly `C` and
neither `A` nor `B`. -/
theorem full_run_deletes_exactly_orphans_witness :
    deletesOf (commit ⟨none, ["instancer"]⟩
      [⟨"A", "A", none, true, [("main", ⟨"nginx", [], none⟩)], []⟩,
       ⟨"B", "B", none, true, [("main", ⟨"nginx", [], none⟩)], []⟩]
      false false
      [some (some "A"), some (some "B"), some (some "C")]) = ["C"] := by
  have h := full_run_deletes_exactly_orphans ⟨none, ["instancer"]⟩
    [⟨"A", "A", none, true, [("main", ⟨"nginx", [], none⟩)], []⟩,
     ⟨"B", "B", none, true, [("main", ⟨"nginx", [], none⟩)], []⟩]
    [some (some "A"), some (some "B"), some (some "C")]
    (by decide)
    (by
      intro r hr
      rcases List.mem_cons.mp hr with rfl | hr
      · exact ⟨"A", rfl, by decide⟩
      rcases List.mem_cons.mp hr with rfl | hr
      · exact ⟨"B", rfl, by decide⟩
      rcases List.mem_cons.mp hr with rfl | hr
      · exact ⟨"C", rfl, by decide⟩
      · cases hr)
  exact h.1.trans (by decide)

end Rcds
